import Mathlib

/-!
# Verification of the 4plebs post scraper core (src/scraper.js)

Shallow embedding of the scraper's core: the page-fetch functions
(`fetchApiPage`, `fetchDomPage`), the main pagination engine
(`scrapeAllPosts` with its retry loop and circuit breaker), progress
persistence (`saveProgress` / `loadProgress` / `clearProgress`), the
normalizer (`normalizePosts`) and the thread grouper (`groupByThread`).

Conventions of the embedding:
* JavaScript values that may be absent (`undefined` / `null`) are `Option`.
* JavaScript falsiness of strings (empty string is falsy) and numbers
  (zero is falsy) is modelled explicitly where the source relies on it
  (`a || b` chains, truthiness tests).
* `parseInt(s, 10)` is modelled by `jsParseInt`; a NaN result is `none`.
* Network interaction is modelled by traces: a page fetch consumes a list
  of HTTP responses, the engine consumes a list of per-attempt outcomes.
* Code that can throw is modelled in `Except`; code whose throw sites are
  all caught locally (the engine) is a total function.
-/

/-! ## JavaScript primitive value helpers -/

/-- A JavaScript primitive that is either a string or an integer number
(the two shapes the scraped fields take: API fields are numbers,
DOM-derived fields are strings). -/
inductive JsPrim where
  | s (v : String)
  | n (v : Int)
deriving DecidableEq, Repr

/-- JavaScript truthiness for `JsPrim`: the empty string and the number 0
are falsy. -/
def JsPrim.truthy : JsPrim → Bool
  | .s v => v ≠ ""
  | .n v => v ≠ 0

/-- The value of `a || b` for string-or-null values `a`, `b`:
`a` unless `a` is absent or the empty string (both falsy). -/
def jsOrS (a b : Option String) : Option String :=
  match a with
  | some v => if v = "" then b else some v
  | none => b

/-- The value of `x || null`: collapses an empty string to null. -/
def jsStrOrNull (a : Option String) : Option String :=
  jsOrS a none

/-- Model of JavaScript `parseInt(s, 10)`: skip leading whitespace, read an
optional sign, then the longest run of decimal digits; NaN (modelled as
`none`) when no digit follows. Trailing garbage is ignored. -/
def jsParseInt (str : String) : Option Int :=
  let cs := str.data.dropWhile Char.isWhitespace
  let signed : Int × List Char :=
    match cs with
    | '-' :: rest => (-1, rest)
    | '+' :: rest => (1, rest)
    | _ => (1, cs)
  let digits := signed.2.takeWhile Char.isDigit
  if digits.isEmpty then none
  else some (signed.1 * (digits.foldl (fun a c => a * 10 + (c.toNat - 48)) 0 : Nat))

/-- Model of `parseInt(x, 10)` applied to a string-or-number field; an
integer number coerces to its decimal representation and parses back to
itself. -/
def jsParseIntPrim : JsPrim → Option Int
  | .s v => jsParseInt v
  | .n v => some v

/-! ## Query and configuration (the CONFIG object, lines 18-40) -/

/-- The identity of a scrape run: the three fields `saveProgress` stores
and `loadProgress` compares (scraper.js lines 307, 322-327). -/
structure Query where
  username : String
  tripcode : String
  boards : String
deriving DecidableEq, Repr

/-- The CONFIG object after `Object.assign(CONFIG, userConfig)`; defaults
as in scraper.js lines 18-40.  `delayMs` and `retryBackoffMs` only feed
`sleep` and are irrelevant to the verified claims, but kept for fidelity. -/
structure Config where
  username : String := ""
  tripcode : String := ""
  boards : String := "x"
  delayMs : Nat := 13000
  maxRetries : Nat := 3
  retryBackoffMs : Nat := 5000
  startPage : Nat := 1
deriving DecidableEq, Repr

/-- The query part of a configuration. -/
def Config.query (c : Config) : Query :=
  ⟨c.username, c.tripcode, c.boards⟩

/-! ## Raw posts

`RawPost` carries every field the normalizer (lines 346-400) reads, each
optional, matching both the API record shape and the record built by
`parsePostFromDom` (lines 198-216). -/

/-- The `media` descriptor object of an API post. -/
structure MediaObj where
  media_filename : Option String := none
  media_link : Option String := none
  thumb_link : Option String := none
deriving DecidableEq, Repr

/-- The `board` field of a raw post: either a plain string (DOM posts) or
an object carrying a `shortname` (API posts). -/
inductive BoardVal where
  | strv (v : String)
  | objv (shortname : Option String)
deriving DecidableEq, Repr

/-- A provider-specific raw post record; all fields optional. -/
structure RawPost where
  num : Option String := none
  thread_num : Option String := none
  board : Option BoardVal := none
  op : Option JsPrim := none
  timestamp : Option JsPrim := none
  fourchan_date : Option String := none
  name : Option String := none
  trip : Option String := none
  title : Option String := none
  poster_hash : Option String := none
  poster_country : Option String := none
  comment : Option String := none
  comment_sanitized : Option String := none
  comment_processed : Option String := none
  comment_html : Option String := none
  media : Option MediaObj := none
  media_url : Option String := none
  media_filename : Option String := none
  thumb_url : Option String := none
  deleted : Option JsPrim := none
deriving DecidableEq, Repr

/-! ## Page fetch model (fetchApiPage lines 48-89, fetchDomPage lines 97-138)

A single page fetch is driven by the list of successive HTTP responses the
server gives to this page request (one response per issued request; the
429 branch re-issues the request against the tail of the list). -/

/-- An HTTP response; `body` is the already-transported payload, whose type
differs between the API variant and the DOM variant. -/
structure HttpResp (β : Type) where
  status : Nat
  statusText : String := ""
  retryAfter : Option String := none
  body : β
deriving DecidableEq, Repr

/-- The parsed JSON envelope of the API search endpoint.  `error` is the
truthiness of `data.error`; `bucket` is the value under key `"0"`
(the source reads `data['0'] || data[0]`, which is the same property,
since the number key 0 coerces to the string `"0"`).  The bucket's
`posts` field may itself be absent. -/
structure ApiData where
  error : Bool := false
  bucket : Option (Option (List RawPost)) := none
deriving DecidableEq, Repr

/-- Outcome of one page fetch as observed by the engine. -/
inductive FetchResult where
  /-- A non-empty page of posts was returned. -/
  | pageData (posts : List RawPost)
  /-- The source signalled end of results (returned null). -/
  | endOfResults
  /-- A thrown HTTP error on a non-2xx, non-429 response
  (lines 71-73, 121-123). -/
  | httpError (status : Nat) (statusText : String)
  /-- `resp.json()` threw on an unparseable body (line 75). -/
  | jsonError
  /-- The response trace was exhausted: the transport hung. -/
  | hang
deriving DecidableEq, Repr

/-- Everything observable about one `fetchApiPage` / `fetchDomPage` call:
the page requests issued (query and page number of each), the sleep
durations in seconds passed to `sleep` by the 429 branch (`none` models a
NaN duration), and the final result. -/
structure FetchLog where
  requests : List (Query × Nat)
  sleeps : List (Option Int)
  result : FetchResult
deriving DecidableEq, Repr

/-- `resp.ok`: status in the 2xx range. -/
def respOk (status : Nat) : Bool :=
  200 ≤ status && status ≤ 299

/-- The seconds slept by the 429 branch, lines 65 and 115:
`parseInt(resp.headers.get('Retry-After') || '30', 10)`.  A missing header
(`null`) or an empty header value is falsy, so the literal `'30'` is
parsed instead; a present non-empty header is given to `parseInt`
directly, whose result may be NaN (`none`). -/
def retryAfterSeconds (header : Option String) : Option Int :=
  jsParseInt (match header with
    | none => "30"
    | some v => if v = "" then "30" else v)

/-- Lines 75-88: interpret a 2xx API response body.  A JSON parse failure
throws; `data.error`, an absent bucket, absent `posts`, or an empty
`posts` array all signal end of results; otherwise the posts are
returned. -/
def apiBodyResult (body : Option ApiData) : FetchResult :=
  match body with
  | none => .jsonError
  | some data =>
    if data.error then .endOfResults
    else
      match data.bucket with
      | none => .endOfResults
      | some none => .endOfResults
      | some (some []) => .endOfResults
      | some (some (p :: ps)) => .pageData (p :: ps)

/-- `fetchApiPage(page)` (lines 48-89) over the trace of server responses:
a 429 response sleeps for the Retry-After seconds and re-issues the same
page request against the rest of the trace; a 2xx response is interpreted
by `apiBodyResult`; any other status throws an HTTP error. -/
def fetchApiPage (q : Query) (page : Nat) :
    List (HttpResp (Option ApiData)) → FetchLog
  | [] => ⟨[], [], .hang⟩
  | r :: rest =>
    if r.status = 429 then
      let cont := fetchApiPage q page rest
      ⟨(q, page) :: cont.requests,
       retryAfterSeconds r.retryAfter :: cont.sleeps,
       cont.result⟩
    else
      ⟨[(q, page)], [],
       if respOk r.status then apiBodyResult r.body
       else .httpError r.status r.statusText⟩

/-- `fetchDomPage(page)` (lines 97-138) over the trace of server
responses.  The body of a 2xx response is the list of raw posts parsed
out of the `article.post` elements by `parsePostFromDom` (the DOM
traversal itself is external input to this model); an empty list signals
end of results (line 129-131).  The 429 branch is identical to the API
variant. -/
def fetchDomPage (q : Query) (page : Nat) :
    List (HttpResp (List RawPost)) → FetchLog
  | [] => ⟨[], [], .hang⟩
  | r :: rest =>
    if r.status = 429 then
      let cont := fetchDomPage q page rest
      ⟨(q, page) :: cont.requests,
       retryAfterSeconds r.retryAfter :: cont.sleeps,
       cont.result⟩
    else
      ⟨[(q, page)], [],
       if respOk r.status then
         match r.body with
         | [] => .endOfResults
         | p :: ps => .pageData (p :: ps)
       else .httpError r.status r.statusText⟩

/-! ## Progress persistence (lines 301-338)

localStorage under the single key `CONFIG.storageKey` is modelled as
`Option StoredVal`: `none` when the key is absent.  The `savedAt`
timestamp field (`Date.now()`) is not read anywhere and is omitted.
The model assumes checkpoint writes succeed (the source downgrades a
failed write to a console warning and continues; no verified claim
depends on a failing write). -/

/-- The value under the storage key: either unparseable JSON (so that
`JSON.parse` throws and `loadProgress` starts fresh) or a record whose
three components may each be absent. -/
inductive StoredVal where
  | corrupt
  | record (config : Option Query) (posts : Option (List RawPost))
      (lastPage : Option Nat)
deriving DecidableEq, Repr

/-- `saveProgress(posts, nextPage)` (lines 301-313): the record written to
storage. -/
def saveProgress (q : Query) (posts : List RawPost) (nextPage : Nat) : StoredVal :=
  .record (some q) (some posts) (some nextPage)

/-- `loadProgress()` (lines 315-334): returns `(posts, lastPage)`.  An
absent key, unparseable JSON, an absent stored config, or any stored
config field differing from the current query all yield the fresh state
`([], 0)`; a match yields the stored posts (defaulting to `[]`) and
stored lastPage (defaulting to `0`). -/
def loadProgress (q : Query) (store : Option StoredVal) : List RawPost × Nat :=
  match store with
  | none => ([], 0)
  | some .corrupt => ([], 0)
  | some (.record cfg ps lp) =>
    match cfg with
    | some c => if c = q then (ps.getD [], lp.getD 0) else ([], 0)
    | none => ([], 0)

/-! ## The scrape engine (scrapeAllPosts, lines 228-297)

The engine is driven by a trace: the list of outcomes of the successive
`fetchPage` attempts it makes (429 responses never surface here, they are
absorbed inside the fetch functions; see `fetchApiPage`).  An `ok` or
`eof` element is a fetch that returned normally (posts, resp. null); an
`err` element is a fetch that threw (HTTP error or JSON parse error).
An exhausted trace models an interrupted run (the environment stopped
answering), which terminates no Promise and leaves storage as it was. -/

/-- One `fetchPage(page)` attempt outcome as seen by the engine. -/
inductive FetchOutcome where
  | ok (posts : List RawPost)
  | eof
  | err
deriving DecidableEq, Repr

/-- How a run of the engine ended. -/
inductive Terminal where
  /-- The main loop broke out on `pagePosts === null` and ran
  `clearProgress()` (lines 274-277, 293).  Note the source reaches this
  branch both on end of results and on per-page retry exhaustion. -/
  | completed
  /-- Early return after 5 consecutive errors, lines 259-263. -/
  | circuitBroken
  /-- The trace ran out: the run was interrupted mid-flight. -/
  | starved
deriving DecidableEq, Repr

/-- Observable result of a `scrapeAllPosts` run: the returned posts, the
final content of storage, and how the run ended. -/
structure EngineResult where
  posts : List RawPost
  store : Option StoredVal
  terminal : Terminal
deriving DecidableEq, Repr

/-- The nested loops of `scrapeAllPosts` (lines 243-296), one recursive
step per fetch attempt.
State: accumulated `posts`, current `page`, per-page retry counter
`attempt`, cross-page counter `consec` of consecutive errors, and the
current storage content `store`.
The guard `attempt > maxRetries` is the negation of the inner `while`
condition (line 249): when the retry budget for the current page is
exhausted, `pagePosts` is still `null`, so the outer loop takes the
end-of-results branch (lines 274-277) and clears progress (line 293).
A successful fetch resets both counters, appends the page's posts, and
checkpoints the accumulator with `nextPage = page + 1` (line 283); an
error increments both counters and, at 5 consecutive errors, saves
progress for the current page and returns early (lines 259-263). -/
def scrapeLoop (cfg : Config) :
    List FetchOutcome → List RawPost → Nat → Nat → Nat →
    Option StoredVal → EngineResult
  | trace, posts, page, attempt, consec, store =>
    if attempt > cfg.maxRetries then
      ⟨posts, none, .completed⟩
    else
      match trace with
      | [] => ⟨posts, store, .starved⟩
      | .eof :: _ => ⟨posts, none, .completed⟩
      | .ok ps :: rest =>
        scrapeLoop cfg rest (posts ++ ps) (page + 1) 0 0
          (some (saveProgress cfg.query (posts ++ ps) (page + 1)))
      | .err :: rest =>
        if consec + 1 ≥ 5 then
          ⟨posts, some (saveProgress cfg.query posts page), .circuitBroken⟩
        else
          scrapeLoop cfg rest posts page (attempt + 1) (consec + 1) store

/-- Lines 233-234: the seed accumulator and start page of a run:
posts and page from `loadProgress`, falling back to `CONFIG.startPage`
when the loaded `lastPage` is not positive. -/
def resumeStateOf (cfg : Config) (store : Option StoredVal) :
    List RawPost × Nat :=
  let lp := loadProgress cfg.query store
  (lp.1, if lp.2 > 0 then lp.2 else cfg.startPage)

/-- `scrapeAllPosts` (lines 228-297) over an attempt trace. -/
def scrapeAllPosts (cfg : Config) (store : Option StoredVal)
    (trace : List FetchOutcome) : EngineResult :=
  let rs := resumeStateOf cfg store
  scrapeLoop cfg trace rs.1 rs.2 0 0 store

/-! ## The public entry point (run, lines 478-539) -/

/-- Observable outcome of `run(userConfig)`.  `earlyExit` is the
no-identity bailout (lines 482-486).  `usedDomFallback` records whether
the catch branch of lines 495-501 re-ran the scrape with the DOM source.
`result` is the normalized post list the function returns, or the error
it throws. -/
structure RunOutcome where
  earlyExit : Bool
  usedDomFallback : Bool
  rawPosts : List RawPost
  deriving DecidableEq, Repr

/-- `run(userConfig)` up to and including the scrape phase (lines
478-501 and the empty-result bailout of lines 503-506).  `cfg` is CONFIG
after `Object.assign` with the user overrides.

`scrapeAllPosts` cannot throw: every `fetchPage` failure is caught by its
retry loop (lines 250-270), `loadProgress` and `saveProgress` catch
internally, and the function returns normally on end of results, on
per-page retry exhaustion, and on the circuit breaker.  The catch branch
that would restart the whole scrape with the DOM source is therefore
unreachable, and `usedDomFallback` is constantly `false`. -/
def run (cfg : Config) (store : Option StoredVal)
    (apiTrace : List FetchOutcome) : Option RunOutcome :=
  if cfg.username = "" ∧ cfg.tripcode = "" then
    none
  else
    let er := scrapeAllPosts cfg store apiTrace
    some ⟨false, false, er.posts⟩

/-! ## Normalizer (normalizePosts, lines 346-400) -/

/-- The maximal non-whitespace words of a character list, in order
(`cur` is the reversed word being read). -/
def wordsAux : List Char → List Char → List (List Char)
  | [], cur => if cur.isEmpty then [] else [cur.reverse]
  | c :: cs, cur =>
    if c.isWhitespace then
      if cur.isEmpty then wordsAux cs [] else cur.reverse :: wordsAux cs []
    else wordsAux cs (c :: cur)

/-- Whitespace collapsing, line 359: `text.replace(/\s+/g, ' ').trim()`.
Replacing every maximal whitespace run by one space and then trimming
leaves exactly the whitespace-separated words joined by single spaces. -/
def collapseWs (s : String) : String :=
  " ".intercalate ((wordsAux s.data []).map String.mk)

/-- Modelled builtin (lines 352-355): assigning to `innerHTML` and reading
back `textContent` to strip residual markup.  Modelled as deleting every
maximal run between an unclosed `<` and the next `>`; entity decoding and
other DOM details are not modelled, and no verified claim observes the
resulting text beyond its totality. -/
def stripTagsAux : List Char → Bool → List Char
  | [], _ => []
  | c :: cs, true => if c = '>' then stripTagsAux cs false else stripTagsAux cs true
  | c :: cs, false => if c = '<' then stripTagsAux cs true else c :: stripTagsAux cs false

/-- See `stripTagsAux`. -/
def stripHtml (s : String) : String :=
  ⟨stripTagsAux s.data false⟩

/-- Largest admissible absolute time value of a JavaScript Date, in
milliseconds since the epoch. -/
def maxTimeMs : Nat := 8640000000000000

/-- Gregorian civil date from days since 1970-01-01 (the standard civil
calendar algorithm with truncated integer division; all divisions below
act on non-negative operands). Returns (year, month, day). -/
def civilFromDays (z0 : Int) : Int × Int × Int :=
  let z := z0 + 719468
  let era := (if 0 ≤ z then z else z - 146096) / 146097
  let doe := z - era * 146097
  let yoe := (doe - doe / 1460 + doe / 36524 - doe / 146096) / 365
  let y := yoe + era * 400
  let doy := doe - (365 * yoe + yoe / 4 - yoe / 100)
  let mp := (5 * doy + 2) / 153
  let d := doy - (153 * mp + 2) / 5 + 1
  let m := mp + (if mp < 10 then 3 else -9)
  (y + (if m ≤ 2 then 1 else 0), m, d)

/-- Left-pad a numeral with zeros to the given width. -/
def padNum (width : Nat) (n : Nat) : String :=
  let s := toString n
  if s.length < width then String.mk (List.replicate (width - s.length) '0') ++ s
  else s

/-- Modelled builtin: `new Date(ms).toISOString()` for an in-range time
value: `YYYY-MM-DDTHH:mm:ss.sssZ`, with the expanded six-digit signed
year form outside years 0-9999. -/
def isoOfMs (ms : Int) : String :=
  let msOfDay := (ms % 86400000).toNat
  let days := (ms - (ms % 86400000)) / 86400000
  let ymd := civilFromDays days
  let yearStr :=
    if 0 ≤ ymd.1 ∧ ymd.1 ≤ 9999 then padNum 4 ymd.1.toNat
    else if 0 ≤ ymd.1 then "+" ++ padNum 6 ymd.1.toNat
    else "-" ++ padNum 6 (-ymd.1).toNat
  yearStr ++ "-" ++ padNum 2 ymd.2.1.toNat ++ "-" ++ padNum 2 ymd.2.2.toNat ++
    "T" ++ padNum 2 (msOfDay / 3600000) ++ ":" ++
    padNum 2 (msOfDay % 3600000 / 60000) ++ ":" ++
    padNum 2 (msOfDay % 60000 / 1000) ++ "." ++ padNum 3 (msOfDay % 1000) ++ "Z"

/-- Modelled builtin: `new Date(ms).toISOString()`, which throws a
RangeError on an invalid date (NaN handled by the caller; here: a time
value outside the representable range). -/
def jsToISOString (ms : Int) : Except String String :=
  if ms.natAbs ≤ maxTimeMs then .ok (isoOfMs ms)
  else .error "RangeError: Invalid time value"

/-- The canonical normalized post record (the object literal of lines
365-398): every declared field present, the optional ones as `Option`. -/
structure Post where
  post_id : Option String
  thread_id : Option String
  board : Option BoardVal
  is_op : Bool
  timestamp : Option Int
  date_human : Option String
  date_iso : Option String
  name : Option String
  tripcode : Option String
  poster_id : Option String
  country : Option String
  subject : Option String
  text : String
  text_html : Option String
  has_media : Bool
  media_filename : Option String
  media_url : Option String
  thumb_url : Option String
  deleted : Bool
deriving DecidableEq, Repr

/-- Line 363: `post.board?.shortname || post.board || null`.  A string
board with a falsy (absent or empty) `shortname` lookup falls back to the
string itself; an object board with a truthy `shortname` resolves to that
string, otherwise the object itself (truthy) is kept. -/
def resolveBoard : Option BoardVal → Option BoardVal
  | none => none
  | some (.strv v) => if v = "" then none else some (.strv v)
  | some (.objv sn) =>
    match sn with
    | some v => if v = "" then some (.objv sn) else some (.strv v)
    | none => some (.objv none)

/-- Line 370 and 397: `x === '1' || x === 1`. -/
def isFlagOne (o : Option JsPrim) : Bool :=
  o == some (.s "1") || o == some (.n 1)

/-- Lines 392-394: `post.media?.f || post.flat || null`. -/
def mediaField (m : Option MediaObj) (f : MediaObj → Option String)
    (flat : Option String) : Option String :=
  jsOrS (match m with | some mo => f mo | none => none) (jsStrOrNull flat)

/-- Line 391: `!!(post.media || post.media_url)`; an object is always
truthy, a string only when non-empty. -/
def hasMedia (m : Option MediaObj) (u : Option String) : Bool :=
  m.isSome || (match u with | some v => v ≠ "" | none => false)

/-- Lines 373-377: the `timestamp` and `date_iso` fields.  A falsy raw
timestamp yields null for both.  A truthy one is given to `parseInt`:
a NaN result makes `new Date(NaN * 1000).toISOString()` throw, as does an
out-of-range time value; otherwise both fields are populated. -/
def timestampFields (ts : Option JsPrim) :
    Except String (Option Int × Option String) :=
  match ts with
  | none => .ok (none, none)
  | some p =>
    if p.truthy then
      match jsParseIntPrim p with
      | some k =>
        match jsToISOString (k * 1000) with
        | .ok iso => .ok (some k, some iso)
        | .error e => .error e
      | none => .error "RangeError: Invalid time value"
    else .ok (none, none)

/-- The per-post body of `normalizePosts` (lines 347-398).  A thrown
RangeError from the date computation aborts the record construction. -/
def normalizePost (post : RawPost) : Except String Post :=
  let text0 := (jsOrS post.comment_sanitized post.comment).getD ""
  let text1 := if text0.data.contains '<' then stripHtml text0 else text0
  match timestampFields post.timestamp with
  | .error e => .error e
  | .ok tf => .ok {
    post_id := jsStrOrNull post.num
    thread_id := jsStrOrNull post.thread_num
    board := resolveBoard post.board
    is_op := isFlagOne post.op
    timestamp := tf.1
    date_human := jsStrOrNull post.fourchan_date
    date_iso := tf.2
    name := jsStrOrNull post.name
    tripcode := jsStrOrNull post.trip
    poster_id := jsStrOrNull post.poster_hash
    country := jsStrOrNull post.poster_country
    subject := jsStrOrNull post.title
    text := collapseWs text1
    text_html := jsOrS post.comment_processed (jsStrOrNull post.comment_html)
    has_media := hasMedia post.media post.media_url
    media_filename := mediaField post.media MediaObj.media_filename post.media_filename
    media_url := mediaField post.media MediaObj.media_link post.media_url
    thumb_url := mediaField post.media MediaObj.thumb_link post.thumb_url
    deleted := isFlagOne post.deleted }

/-- `normalizePosts(posts)` (line 346-400): `posts.map(...)`, where the
first throwing element aborts the whole map. -/
def normalizePosts : List RawPost → Except String (List Post)
  | [] => .ok []
  | r :: rs =>
    match normalizePost r with
    | .error e => .error e
    | .ok p =>
      match normalizePosts rs with
      | .error e => .error e
      | .ok ps => .ok (p :: ps)

/-! ## Thread grouper (groupByThread, lines 406-426) -/

/-- A `{thread_id, board, posts}` group (lines 411-415). -/
structure Thread where
  thread_id : String
  board : Option BoardVal
  posts : List Post
deriving DecidableEq, Repr

/-- Line 409: `post.thread_id || 'unknown'` (an absent or empty thread id
falls into the sentinel bucket). -/
def groupKey (p : Post) : String :=
  match p.thread_id with
  | some t => if t = "" then "unknown" else t
  | none => "unknown"

/-- Lines 410-417 for one post: find the bucket keyed `tid` and push `p`
onto its posts; when absent, create `{thread_id: tid, board: p.board,
posts: [p]}`.  Buckets are kept in creation order; keys are unique, so
updating the first match is exact. -/
def addToBucket : List Thread → String → Post → List Thread
  | [], tid, p => [⟨tid, p.board, [p]⟩]
  | t :: ts, tid, p =>
    if t.thread_id == tid then { t with posts := t.posts ++ [p] } :: ts
    else t :: addToBucket ts tid p

/-- One iteration of the `for` loop of lines 408-418. -/
def insertPost (bs : List Thread) (p : Post) : List Thread :=
  addToBucket bs (groupKey p) p

/-- Line 422: the sort key `(a.timestamp || 0)`. -/
def tsKey (p : Post) : Int :=
  p.timestamp.getD 0

/-- The comparator of line 422: `(a.timestamp || 0) - (b.timestamp || 0)`
sorts ascending by `tsKey`. -/
def tsLe (a b : Post) : Prop :=
  tsKey a ≤ tsKey b

instance : DecidableRel tsLe :=
  fun a b => inferInstanceAs (Decidable (tsKey a ≤ tsKey b))

instance : IsTotal Post tsLe :=
  ⟨fun a b => le_total (tsKey a) (tsKey b)⟩

instance : IsTrans Post tsLe :=
  ⟨fun _ _ _ h1 h2 => le_trans h1 h2⟩

/-- `groupByThread(normalizedPosts)` (lines 406-426): bucket the posts by
thread key in input order, then sort each bucket's posts by timestamp
ascending (ECMAScript sort is stable; any stable sort by this key gives
the same list, modelled with insertion sort). -/
def groupByThread (ps : List Post) : List Thread :=
  (ps.foldl insertPost []).map fun t =>
    { t with posts := t.posts.insertionSort tsLe }

/-! ## Shared concrete demonstration values -/

/-- A run configuration with an identity set; all other fields default
(in particular `maxRetries = 3`, `startPage = 1`). -/
def cfgBob : Config := { username := "Bob" }

/-- A minimal raw post. -/
def rp1 : RawPost := { num := some "1" }

/-- A second minimal raw post. -/
def rp2 : RawPost := { num := some "2" }

/-- A 429 API response with the given Retry-After header value. -/
def resp429Api (ra : Option String) : HttpResp (Option ApiData) :=
  ⟨429, "Too Many Requests", ra, none⟩

/-- A successful API response carrying one post. -/
def respOkApi : HttpResp (Option ApiData) :=
  ⟨200, "OK", none, some ⟨false, some (some [rp1])⟩⟩

/-- A 429 DOM-variant response with the given Retry-After header value. -/
def resp429Dom (ra : Option String) : HttpResp (List RawPost) :=
  ⟨429, "Too Many Requests", ra, []⟩

/-- A successful DOM-variant response carrying one post. -/
def respOkDom : HttpResp (List RawPost) :=
  ⟨200, "OK", none, [rp1]⟩

/-! ## Claim C1: when the checkpoint is deleted -/

/-- C1.  The claim states the stored ProgressRecord is deleted exactly on
successful completion (EndOfResults after all pages) and is left intact
on every abort while page fetches keep failing.  The code violates this:
with the default `maxRetries = 3`, a page whose four fetch attempts all
fail exhausts the retry budget without reaching the 5-error breaker; the
loop then takes the end-of-results branch and runs `clearProgress()`,
deleting the checkpoint written after page 1.  First conjunct: the
failing run (page 1 ok, then four consecutive transport errors) ends in
the `completed` state with storage empty.  Second conjunct, for contrast:
with `maxRetries = 4` the fifth consecutive error does trip the breaker
and the checkpoint survives. -/
theorem c1_checkpoint_deleted_on_retry_exhaustion :
    scrapeAllPosts cfgBob none
        [.ok [rp1], .err, .err, .err, .err]
      = ⟨[rp1], none, .completed⟩ ∧
    scrapeAllPosts { cfgBob with maxRetries := 4 } none
        [.ok [rp1], .err, .err, .err, .err, .err]
      = ⟨[rp1], some (saveProgress ⟨"Bob", "", "x"⟩ [rp1] 2), .circuitBroken⟩ := by
  exact ⟨rfl, rfl⟩

/-! ## Claim C2: five consecutive transport errors -/

/-- C2.  The claim states that every trace with exactly 5 consecutive
transport errors terminates the run circuit-broken with a checkpoint.
With the default `maxRetries = 3` the engine stops after consuming only
4 of the 5 errors: the per-page retry budget is exhausted first, the run
ends in the `completed` state, and storage is cleared rather than
checkpointed.  (The cross-page breaker is reachable only when
`maxRetries` is at least 4; compare the second conjunct of the C1
theorem.) -/
theorem c2_breaker_unreachable_at_default_retries :
    scrapeAllPosts cfgBob none (List.replicate 5 .err)
      = ⟨[], none, .completed⟩ ∧
    (⟨[], none, .completed⟩ : EngineResult).terminal ≠ .circuitBroken := by
  exact ⟨by decide, by decide⟩

/-! ## Claim C4: the DOM fallback -/

/-- C4.  The claim states a whole-run failure of the API source triggers
one restart with the DOM source.  In the code the catch branch of `run`
is unreachable: `scrapeAllPosts` catches every fetch error and returns
normally, so `usedDomFallback` is false on every input (first conjunct);
in particular a run in which every API fetch throws (second conjunct)
returns an empty result in the `completed` state without any DOM
restart. -/
theorem c4_dom_fallback_never_triggered :
    (∀ (cfg : Config) (store : Option StoredVal) (tr : List FetchOutcome),
      (run cfg store tr).elim True (fun o => o.usedDomFallback = false)) ∧
    run cfgBob none (List.replicate 5 .err) = some ⟨false, false, []⟩ := by
  constructor
  · intro cfg store tr
    by_cases h : cfg.username = "" ∧ cfg.tripcode = ""
    · simp [run, h]
    · simp [run, h]
  · rfl

/-! ## Claim C3: 429 handling -/

/-- C3 counterexample.  The claim states the fetch sleeps exactly 30
seconds when the Retry-After header is "missing or unparseable".  For the
present but unparseable header value "soon", `parseInt` yields NaN, so
the computed sleep duration is NaN (modelled `none`), not 30 seconds:
concretely, a fetch hitting that 429 records the sleep list `[none]`. -/
theorem c3_counterexample_unparseable_retry_after :
    retryAfterSeconds (some "soon") ≠ some 30 ∧
    (fetchApiPage ⟨"Bob", "", "x"⟩ 1 [resp429Api (some "soon"), respOkApi]).sleeps
      = [none] := by
  exact ⟨by decide, rfl⟩

/-- Any prefix of 429 API responses is absorbed transparently. -/
theorem fetchApiPage_skip429 (q : Query) (page : Nat)
    (pre rest : List (HttpResp (Option ApiData)))
    (h : ∀ r ∈ pre, r.status = 429) :
    fetchApiPage q page (pre ++ rest)
      = ⟨List.replicate pre.length (q, page)
            ++ (fetchApiPage q page rest).requests,
         pre.map (fun r => retryAfterSeconds r.retryAfter)
            ++ (fetchApiPage q page rest).sleeps,
         (fetchApiPage q page rest).result⟩ := by
  induction pre with
  | nil => simp
  | cons r pre ih =>
    have hr : r.status = 429 := h r (by simp)
    have ih2 := ih (fun x hx => h x (List.mem_cons_of_mem _ hx))
    simp [fetchApiPage, hr, ih2, List.replicate_succ]

/-- Any prefix of 429 DOM responses is absorbed transparently. -/
theorem fetchDomPage_skip429 (q : Query) (page : Nat)
    (pre rest : List (HttpResp (List RawPost)))
    (h : ∀ r ∈ pre, r.status = 429) :
    fetchDomPage q page (pre ++ rest)
      = ⟨List.replicate pre.length (q, page)
            ++ (fetchDomPage q page rest).requests,
         pre.map (fun r => retryAfterSeconds r.retryAfter)
            ++ (fetchDomPage q page rest).sleeps,
         (fetchDomPage q page rest).result⟩ := by
  induction pre with
  | nil => simp
  | cons r pre ih =>
    have hr : r.status = 429 := h r (by simp)
    have ih2 := ih (fun x hx => h x (List.mem_cons_of_mem _ hx))
    simp [fetchDomPage, hr, ih2, List.replicate_succ]

/-- C3 as amended.  In either source variant, a prefix of 429 responses
is never surfaced as a failure: the final result is exactly that of the
same page request replayed against the remaining responses (so the
engine's retry and consecutive-failure counters, which move only on a
thrown fetch, are untouched); each 429 sleeps for the seconds parsed from
its Retry-After header and re-issues a request with the same query and
page number.  The parsed delay is exactly 30 seconds when the header is
missing or empty, and the parsed value whenever `parseInt` succeeds; a
present unparseable header yields a NaN delay (see the counterexample),
not 30 seconds. -/
theorem c3_rate_limit_transparent (q : Query) (page : Nat)
    (pre rest : List (HttpResp (Option ApiData)))
    (preD restD : List (HttpResp (List RawPost)))
    (h : ∀ r ∈ pre, r.status = 429) (hD : ∀ r ∈ preD, r.status = 429) :
    (fetchApiPage q page (pre ++ rest)).result
        = (fetchApiPage q page rest).result ∧
    (fetchApiPage q page (pre ++ rest)).sleeps
        = pre.map (fun r => retryAfterSeconds r.retryAfter)
            ++ (fetchApiPage q page rest).sleeps ∧
    (fetchApiPage q page (pre ++ rest)).requests
        = List.replicate pre.length (q, page)
            ++ (fetchApiPage q page rest).requests ∧
    (fetchDomPage q page (preD ++ restD)).result
        = (fetchDomPage q page restD).result ∧
    (fetchDomPage q page (preD ++ restD)).sleeps
        = preD.map (fun r => retryAfterSeconds r.retryAfter)
            ++ (fetchDomPage q page restD).sleeps ∧
    (fetchDomPage q page (preD ++ restD)).requests
        = List.replicate preD.length (q, page)
            ++ (fetchDomPage q page restD).requests ∧
    retryAfterSeconds none = some 30 ∧
    retryAfterSeconds (some "") = some 30 ∧
    (∀ (s : String) (k : Int), s ≠ "" → jsParseInt s = some k →
      retryAfterSeconds (some s) = some k) := by
  rw [fetchApiPage_skip429 q page pre rest h,
    fetchDomPage_skip429 q page preD restD hD]
  refine ⟨rfl, rfl, rfl, rfl, rfl, rfl, by decide, by decide, ?_⟩
  intro s k hs hk
  simpa [retryAfterSeconds, hs] using hk

/-- Closed instantiation of the C3 theorem: one 429 with Retry-After 120
before a successful response, in each variant. -/
theorem c3_rate_limit_transparent_witness :
    (fetchApiPage ⟨"Bob", "", "x"⟩ 1 ([resp429Api (some "120")] ++ [respOkApi])).result
        = (fetchApiPage ⟨"Bob", "", "x"⟩ 1 [respOkApi]).result ∧
    (fetchApiPage ⟨"Bob", "", "x"⟩ 1 ([resp429Api (some "120")] ++ [respOkApi])).sleeps
        = [resp429Api (some "120")].map (fun r => retryAfterSeconds r.retryAfter)
            ++ (fetchApiPage ⟨"Bob", "", "x"⟩ 1 [respOkApi]).sleeps ∧
    (fetchDomPage ⟨"Bob", "", "x"⟩ 1 ([resp429Dom none] ++ [respOkDom])).result
        = (fetchDomPage ⟨"Bob", "", "x"⟩ 1 [respOkDom]).result ∧
    retryAfterSeconds none = some 30 := by
  have h := c3_rate_limit_transparent ⟨"Bob", "", "x"⟩ 1
    [resp429Api (some "120")] [respOkApi] [resp429Dom none] [respOkDom]
    (by intro r hr; simp at hr; subst hr; rfl)
    (by intro r hr; simp at hr; subst hr; rfl)
  exact ⟨h.1, h.2.1, h.2.2.2.1, h.2.2.2.2.2.2.1⟩

/-! ## Engine run lemmas -/

/-- Fresh storage seeds an empty accumulator at `startPage`. -/
theorem resumeStateOf_none (cfg : Config) :
    resumeStateOf cfg none = ([], cfg.startPage) := rfl

/-- A checkpoint written by `saveProgress` for the same query seeds its
posts and page (when the saved page is positive). -/
theorem resumeStateOf_checkpoint (cfg : Config) (ps : List RawPost)
    (n : Nat) (hn : 0 < n) :
    resumeStateOf cfg (some (saveProgress cfg.query ps n)) = (ps, n) := by
  simp [resumeStateOf, loadProgress, saveProgress, hn]

/-- A run whose fetches all succeed and then hit end of results returns
the seed followed by all page contents, completed, with storage
cleared. -/
theorem scrapeLoop_ok_eof (cfg : Config) (pss : List (List RawPost)) :
    ∀ (posts : List RawPost) (page : Nat) (store : Option StoredVal),
      scrapeLoop cfg (pss.map FetchOutcome.ok ++ [FetchOutcome.eof])
          posts page 0 0 store
        = ⟨posts ++ pss.flatten, none, .completed⟩ := by
  induction pss with
  | nil => intro posts page store; simp [scrapeLoop]
  | cons l ls ih =>
    intro posts page store
    simp [scrapeLoop, ih, List.append_assoc]

/-- One successful page fetch: reset both counters, append the page,
checkpoint, advance the page counter. -/
theorem scrapeLoop_ok_step (cfg : Config) (o : List RawPost)
    (rest : List FetchOutcome) (posts : List RawPost) (page : Nat)
    (store : Option StoredVal) :
    scrapeLoop cfg (FetchOutcome.ok o :: rest) posts page 0 0 store
      = scrapeLoop cfg rest (posts ++ o) (page + 1) 0 0
          (some (saveProgress cfg.query (posts ++ o) (page + 1))) := by
  conv_lhs => rw [scrapeLoop]
  simp

/-- A run whose fetches all succeed until the trace is interrupted
accumulates all page contents and leaves the checkpoint written after
the last successful page in storage. -/
theorem scrapeLoop_ok_starved (cfg : Config) (pss : List (List RawPost))
    (hne : pss ≠ []) :
    ∀ (posts : List RawPost) (page : Nat) (store : Option StoredVal),
      scrapeLoop cfg (pss.map FetchOutcome.ok) posts page 0 0 store
        = ⟨posts ++ pss.flatten,
           some (saveProgress cfg.query (posts ++ pss.flatten)
             (page + pss.length)),
           .starved⟩ := by
  induction pss with
  | nil => exact absurd rfl hne
  | cons l ls ih =>
    intro posts page store
    rcases ls with _ | ⟨m, ms⟩
    · simp [scrapeLoop]
    · have ih2 := ih (by simp) (posts ++ l) (page + 1)
        (some (saveProgress cfg.query (posts ++ l) (page + 1)))
      rw [List.map_cons, scrapeLoop_ok_step, ih2]
      simp only [EngineResult.mk.injEq, saveProgress, StoredVal.record.injEq,
        Option.some.injEq, List.append_assoc, List.flatten_cons, List.length_cons]
      simp
      omega

/-! ## Claim C5: idempotent resume -/

/-- C5.  Over a deterministic page source serving the non-empty page
contents `pages` from `startPage` onward and then end of results: a run
interrupted after `k` successfully checkpointed pages leaves a checkpoint
from which a resumed run starts exactly at page `startPage + k` (last
conjunct) and accumulates exactly the post sequence of a single
uninterrupted run (first conjunct), namely all pages in order (second
conjunct); both runs complete (third conjunct), deleting the
checkpoint. -/
theorem c5_resume_equivalence (cfg : Config) (pages : List (List RawPost))
    (k : Nat) (hk : k ≤ pages.length) (hne : ∀ l ∈ pages, l ≠ []) :
    (scrapeAllPosts cfg
        (scrapeAllPosts cfg none ((pages.take k).map FetchOutcome.ok)).store
        ((pages.drop k).map FetchOutcome.ok ++ [FetchOutcome.eof])).posts
      = (scrapeAllPosts cfg none
          (pages.map FetchOutcome.ok ++ [FetchOutcome.eof])).posts ∧
    (scrapeAllPosts cfg none
        (pages.map FetchOutcome.ok ++ [FetchOutcome.eof])).posts
      = pages.flatten ∧
    (scrapeAllPosts cfg
        (scrapeAllPosts cfg none ((pages.take k).map FetchOutcome.ok)).store
        ((pages.drop k).map FetchOutcome.ok ++ [FetchOutcome.eof])).terminal
      = .completed ∧
    (resumeStateOf cfg
        (scrapeAllPosts cfg none ((pages.take k).map FetchOutcome.ok)).store).2
      = cfg.startPage + k := by
  have hfull : scrapeAllPosts cfg none (pages.map FetchOutcome.ok ++ [FetchOutcome.eof])
      = ⟨pages.flatten, none, .completed⟩ := by
    unfold scrapeAllPosts
    rw [resumeStateOf_none]
    simpa using scrapeLoop_ok_eof cfg pages [] cfg.startPage none
  rcases Nat.eq_zero_or_pos k with hk0 | hkpos
  · subst hk0
    have hint : scrapeAllPosts cfg none ((pages.take 0).map FetchOutcome.ok)
        = ⟨[], none, .starved⟩ := by
      simp [scrapeAllPosts, resumeStateOf_none, scrapeLoop]
    rw [hint]
    simp [hfull, resumeStateOf_none]
  · have htk : pages.take k ≠ [] := by
      intro hempty
      have : k ⊓ pages.length = 0 := by
        simpa [hempty] using (List.length_take k pages).symm
      omega
    have hlen : (pages.take k).length = k := by
      rw [List.length_take]; omega
    have hint : scrapeAllPosts cfg none ((pages.take k).map FetchOutcome.ok)
        = ⟨(pages.take k).flatten,
           some (saveProgress cfg.query (pages.take k).flatten
             (cfg.startPage + k)),
           .starved⟩ := by
      unfold scrapeAllPosts
      rw [resumeStateOf_none]
      simpa [hlen] using
        scrapeLoop_ok_starved cfg (pages.take k) htk [] cfg.startPage none
    have hpos : 0 < cfg.startPage + k := by omega
    have hres := resumeStateOf_checkpoint cfg (pages.take k).flatten
      (cfg.startPage + k) hpos
    have hresumed : scrapeAllPosts cfg
        (some (saveProgress cfg.query (pages.take k).flatten (cfg.startPage + k)))
        ((pages.drop k).map FetchOutcome.ok ++ [FetchOutcome.eof])
        = ⟨(pages.take k).flatten ++ (pages.drop k).flatten, none, .completed⟩ := by
      unfold scrapeAllPosts
      rw [hres]
      exact scrapeLoop_ok_eof cfg (pages.drop k) (pages.take k).flatten
        (cfg.startPage + k) _
    have hjoin : (pages.take k).flatten ++ (pages.drop k).flatten = pages.flatten := by
      rw [← List.flatten_append, List.take_append_drop]
    rw [hint, hfull, hresumed, hres]
    exact ⟨by simp [hjoin], rfl, rfl, rfl⟩

/-- Closed instantiation of the C5 theorem: two one-post pages,
interrupted after the first. -/
theorem c5_resume_equivalence_witness :
    (scrapeAllPosts cfgBob
        (scrapeAllPosts cfgBob none (([[rp1], [rp2]].take 1).map FetchOutcome.ok)).store
        ((([[rp1], [rp2]].drop 1)).map FetchOutcome.ok ++ [FetchOutcome.eof])).posts
      = (scrapeAllPosts cfgBob none
          ([[rp1], [rp2]].map FetchOutcome.ok ++ [FetchOutcome.eof])).posts ∧
    (scrapeAllPosts cfgBob none
        ([[rp1], [rp2]].map FetchOutcome.ok ++ [FetchOutcome.eof])).posts
      = [[rp1], [rp2]].flatten ∧
    (resumeStateOf cfgBob
        (scrapeAllPosts cfgBob none (([[rp1], [rp2]].take 1).map FetchOutcome.ok)).store).2
      = cfgBob.startPage + 1 := by
  have h := c5_resume_equivalence cfgBob [[rp1], [rp2]] 1 (by decide)
    (by intro l hl; simp at hl; rcases hl with h | h <;> simp [h])
  exact ⟨h.1, h.2.1, h.2.2.2⟩

/-! ## Claim C6: resume only on an exact query match -/

/-- Whether the stored record carries a config equal to the given query
in every field (the condition of lines 322-327). -/
def queryMatches (q : Query) : Option StoredVal → Bool
  | some (.record (some c) _ _) => decide (c = q)
  | _ => false

/-- C6.  First conjunct: when the stored record is absent, unreadable,
lacks a config, or differs from the current query in any field, the run
seeds an empty accumulator at `config.startPage`.  Second conjunct: a
stored record whose config equals the current query in every field seeds
the stored posts and the stored (positive) resume page. -/
theorem c6_resume_query_match (cfg : Config) (store : Option StoredVal) :
    (queryMatches cfg.query store = false →
      resumeStateOf cfg store = ([], cfg.startPage)) ∧
    (∀ (ps : List RawPost) (lp : Nat),
      store = some (.record (some cfg.query) (some ps) (some lp)) → 0 < lp →
      resumeStateOf cfg store = (ps, lp)) := by
  constructor
  · intro hmm
    match store with
    | none => rfl
    | some .corrupt => rfl
    | some (.record none ps lp) => rfl
    | some (.record (some c) ps lp) =>
      have hc : ¬(c = cfg.query) := by
        simpa [queryMatches] using hmm
      simp [resumeStateOf, loadProgress, hc]
  · intro ps lp hst hlp
    subst hst
    simp [resumeStateOf, loadProgress, hlp]

/-- Closed instantiation of the C6 theorem: a record stored for a
different username is ignored; a matching record is resumed. -/
theorem c6_resume_query_match_witness :
    resumeStateOf cfgBob
        (some (.record (some ⟨"Alice", "", "x"⟩) (some [rp1]) (some 5)))
      = ([], cfgBob.startPage) ∧
    resumeStateOf cfgBob
        (some (.record (some cfgBob.query) (some [rp1]) (some 5)))
      = ([rp1], 5) := by
  exact ⟨(c6_resume_query_match cfgBob _).1 (by decide),
    (c6_resume_query_match cfgBob _).2 [rp1] 5 rfl (by decide)⟩

/-! ## Normalizer lemmas -/

/-- The explicit record produced by `normalizePost` once the timestamp
computation has returned. -/
theorem normalizePost_eq (r : RawPost) (tf : Option Int × Option String)
    (htf : timestampFields r.timestamp = .ok tf) :
    normalizePost r = .ok
      { post_id := jsStrOrNull r.num
        thread_id := jsStrOrNull r.thread_num
        board := resolveBoard r.board
        is_op := isFlagOne r.op
        timestamp := tf.1
        date_human := jsStrOrNull r.fourchan_date
        date_iso := tf.2
        name := jsStrOrNull r.name
        tripcode := jsStrOrNull r.trip
        poster_id := jsStrOrNull r.poster_hash
        country := jsStrOrNull r.poster_country
        subject := jsStrOrNull r.title
        text := collapseWs (if ((jsOrS r.comment_sanitized r.comment).getD "").data.contains '<'
          then stripHtml ((jsOrS r.comment_sanitized r.comment).getD "")
          else (jsOrS r.comment_sanitized r.comment).getD "")
        text_html := jsOrS r.comment_processed (jsStrOrNull r.comment_html)
        has_media := hasMedia r.media r.media_url
        media_filename := mediaField r.media MediaObj.media_filename r.media_filename
        media_url := mediaField r.media MediaObj.media_link r.media_url
        thumb_url := mediaField r.media MediaObj.thumb_link r.thumb_url
        deleted := isFlagOne r.deleted } := by
  simp only [normalizePost, htf]

/-- A failing timestamp computation fails the whole per-post map. -/
theorem normalizePost_error (r : RawPost) (e : String)
    (hte : timestampFields r.timestamp = .error e) :
    normalizePost r = .error e := by
  simp only [normalizePost, hte]

/-- The two fields produced by `timestampFields` are jointly null or
jointly present. -/
theorem timestampFields_joint (ts : Option JsPrim)
    (tf : Option Int × Option String) (h : timestampFields ts = .ok tf) :
    (tf.1 = none ↔ tf.2 = none) := by
  rcases ts with _ | p
  · simp only [timestampFields, Except.ok.injEq] at h
    rw [← h]
    simp
  · by_cases hp : p.truthy = true
    · rcases hk : jsParseIntPrim p with _ | k
      · simp [timestampFields, hp, hk] at h
      · rcases hiso : jsToISOString (k * 1000) with e | iso
        · simp [timestampFields, hp, hk, hiso] at h
        · simp only [timestampFields, hp, if_true, hk, hiso,
            Except.ok.injEq] at h
          rw [← h]
          simp
    · simp only [timestampFields, hp, Bool.false_eq_true, if_false,
        Except.ok.injEq] at h
      rw [← h]
      simp

/-- Pointwise form of claim C9. -/
theorem normalizePost_joint (r : RawPost) (p : Post)
    (h : normalizePost r = .ok p) :
    (p.timestamp = none ↔ p.date_iso = none) := by
  rcases htf : timestampFields r.timestamp with e | tf
  · rw [normalizePost_error r e htf] at h
    exact absurd h (by simp)
  · rw [normalizePost_eq r tf htf] at h
    have hj := timestampFields_joint r.timestamp tf htf
    have hp := (Except.ok.injEq _ _).mp h
    rw [← hp]
    simpa using hj

/-! ## Claim C9: timestamp and date_iso jointly null -/

/-- C9.  In every Post record produced by the normalizer, `timestamp` is
null exactly when `date_iso` is null: a falsy raw timestamp nulls both,
and a truthy one either populates both or throws before a record is
produced. -/
theorem c9_timestamp_date_iso_joint (rs : List RawPost) (ps : List Post)
    (h : normalizePosts rs = .ok ps) :
    ∀ p ∈ ps, (p.timestamp = none ↔ p.date_iso = none) := by
  induction rs generalizing ps with
  | nil =>
    simp only [normalizePosts, Except.ok.injEq] at h
    rw [← h]
    simp
  | cons r rs ih =>
    rcases hr : normalizePost r with e | p0
    · simp [normalizePosts, hr] at h
    · rcases hrs : normalizePosts rs with e | ps0
      · simp [normalizePosts, hr, hrs] at h
      · simp only [normalizePosts, hr, hrs, Except.ok.injEq] at h
        rw [← h]
        intro p hp
        rcases List.mem_cons.mp hp with hcase | hcase
        · rw [hcase]; exact normalizePost_joint r p0 hr
        · exact ih ps0 hrs p hcase

/-- The normalized form of `rp1` (all fields absent except `num`). -/
def pNorm1 : Post :=
  ⟨some "1", none, none, false, none, none, none, none, none, none, none,
   none, "", none, false, none, none, none, false⟩

/-- A raw post carrying the numeric timestamp 1700000000. -/
def rpTs : RawPost := { num := some "3", timestamp := some (.n 1700000000) }

/-- The normalized form of `rpTs`. -/
def pNormTs : Post :=
  ⟨some "3", none, none, false, some 1700000000, none,
   some "2023-11-14T22:13:20.000Z", none, none, none, none,
   none, "", none, false, none, none, none, false⟩

/-- Closed instantiation of the C9 theorem on a two-post list: one post
with both fields null, one with both populated. -/
theorem c9_timestamp_date_iso_joint_witness :
    normalizePosts [rp1, rpTs] = .ok [pNorm1, pNormTs] ∧
    (pNorm1.timestamp = none ↔ pNorm1.date_iso = none) ∧
    (pNormTs.timestamp = none ↔ pNormTs.date_iso = none) := by
  have hn : normalizePosts [rp1, rpTs] = .ok [pNorm1, pNormTs] := by rfl
  exact ⟨hn,
    c9_timestamp_date_iso_joint [rp1, rpTs] [pNorm1, pNormTs] hn pNorm1 (by simp),
    c9_timestamp_date_iso_joint [rp1, rpTs] [pNorm1, pNormTs] hn pNormTs (by simp)⟩

/-! ## Claim C8: tolerance of missing fields -/

/-- The only way the per-post normalizer can throw: a present, truthy raw
timestamp that either fails to parse (NaN date) or denotes a time outside
the representable Date range.  `timestampSafe` is true in every other
situation, in particular whenever the timestamp field is absent. -/
def timestampSafe (r : RawPost) : Bool :=
  match r.timestamp with
  | none => true
  | some p =>
    if p.truthy then
      match jsParseIntPrim p with
      | some k => decide ((k * 1000).natAbs ≤ maxTimeMs)
      | none => false
    else true

/-- Field-by-field statement that a missing optional raw field comes out
as null (or as the documented falsy default) in the normalized record. -/
def nullMapping (r : RawPost) (p : Post) : Prop :=
  (r.num = none → p.post_id = none) ∧
  (r.thread_num = none → p.thread_id = none) ∧
  (r.board = none → p.board = none) ∧
  (r.op = none → p.is_op = false) ∧
  (r.timestamp = none → p.timestamp = none ∧ p.date_iso = none) ∧
  (r.fourchan_date = none → p.date_human = none) ∧
  (r.name = none → p.name = none) ∧
  (r.trip = none → p.tripcode = none) ∧
  (r.poster_hash = none → p.poster_id = none) ∧
  (r.poster_country = none → p.country = none) ∧
  (r.title = none → p.subject = none) ∧
  (r.comment_sanitized = none ∧ r.comment = none → p.text = "") ∧
  (r.comment_processed = none ∧ r.comment_html = none → p.text_html = none) ∧
  (r.media = none ∧ r.media_url = none → p.has_media = false ∧ p.media_url = none) ∧
  (r.media = none ∧ r.media_filename = none → p.media_filename = none) ∧
  (r.media = none ∧ r.thumb_url = none → p.thumb_url = none) ∧
  (r.deleted = none → p.deleted = false)

/-- A safe timestamp makes `timestampFields` return, with both fields
null when the raw timestamp is absent. -/
theorem timestampFields_ok_of_safe (r : RawPost) (h : timestampSafe r = true) :
    ∃ tf, timestampFields r.timestamp = .ok tf ∧
      (r.timestamp = none → tf = (none, none)) := by
  rcases hts : r.timestamp with _ | p
  · exact ⟨(none, none), by simp [timestampFields], fun _ => rfl⟩
  · by_cases hp : p.truthy = true
    · rcases hk : jsParseIntPrim p with _ | k
      · rw [timestampSafe, hts] at h
        simp [hp, hk] at h
      · have hrange : (k * 1000).natAbs ≤ maxTimeMs := by
          rw [timestampSafe, hts] at h
          simpa [hp, hk] using h
        refine ⟨(some k, some (isoOfMs (k * 1000))), ?_, by simp⟩
        simp [timestampFields, hp, hk, jsToISOString, hrange]
    · exact ⟨(none, none), by simp [timestampFields, hp], by simp⟩

/-- Pointwise form of claim C8: a raw post whose timestamp is safe (in
particular: absent) normalizes without throwing, and each of its missing
optional fields comes out null. -/
theorem normalizePost_ok_of_safe (r : RawPost) (h : timestampSafe r = true) :
    ∃ p, normalizePost r = .ok p ∧ nullMapping r p := by
  obtain ⟨tf, htf, htfn⟩ := timestampFields_ok_of_safe r h
  refine ⟨_, normalizePost_eq r tf htf, ?_⟩
  refine ⟨?_, ?_, ?_, ?_, ?_, ?_, ?_, ?_, ?_, ?_, ?_, ?_, ?_, ?_, ?_, ?_, ?_⟩
  · intro h1; simp [h1, jsStrOrNull, jsOrS]
  · intro h1; simp [h1, jsStrOrNull, jsOrS]
  · intro h1; simp [h1, resolveBoard]
  · intro h1; simp [h1, isFlagOne]
  · intro h1; simp [htfn h1]
  · intro h1; simp [h1, jsStrOrNull, jsOrS]
  · intro h1; simp [h1, jsStrOrNull, jsOrS]
  · intro h1; simp [h1, jsStrOrNull, jsOrS]
  · intro h1; simp [h1, jsStrOrNull, jsOrS]
  · intro h1; simp [h1, jsStrOrNull, jsOrS]
  · intro h1; simp [h1, jsStrOrNull, jsOrS]
  · rintro ⟨h1, h2⟩; simp [h1, h2, jsOrS]; rfl
  · rintro ⟨h1, h2⟩; simp [h1, h2, jsOrS, jsStrOrNull]
  · rintro ⟨h1, h2⟩; simp [h1, h2, hasMedia, mediaField, jsOrS, jsStrOrNull]
  · rintro ⟨h1, h2⟩; simp [h1, h2, mediaField, jsOrS, jsStrOrNull]
  · rintro ⟨h1, h2⟩; simp [h1, h2, mediaField, jsOrS, jsStrOrNull]
  · intro h1; simp [h1, isFlagOne]

/-- C8.  A list of raw posts, each with a safe (for instance absent)
timestamp field, normalizes without raising, one output record per input
record, and every missing optional field of an input maps to null in the
corresponding output; every output record carries all declared Post
fields by construction of the `Post` type. -/
theorem c8_normalize_missing_fields (rs : List RawPost)
    (h : ∀ r ∈ rs, timestampSafe r = true) :
    ∃ ps, normalizePosts rs = .ok ps ∧ ps.length = rs.length ∧
      ∀ pr ∈ rs.zip ps, nullMapping pr.1 pr.2 := by
  induction rs with
  | nil => exact ⟨[], rfl, rfl, by simp⟩
  | cons r rs ih =>
    obtain ⟨p, hp, hmap⟩ := normalizePost_ok_of_safe r (h r (by simp))
    obtain ⟨ps, hps, hlen, hzip⟩ := ih (fun x hx => h x (List.mem_cons_of_mem _ hx))
    refine ⟨p :: ps, ?_, by simp [hlen], ?_⟩
    · simp [normalizePosts, hp, hps]
    · intro pr hpr
      rcases List.mem_cons.mp hpr with hcase | hcase
      · rw [hcase]; exact hmap
      · exact hzip pr hcase

/-- Closed instantiation of the C8 theorem: the fully-absent raw record
and a record with only a post number, both safe. -/
theorem c8_normalize_missing_fields_witness :
    (∀ r ∈ [({} : RawPost), rp1], timestampSafe r = true) ∧
    (∃ ps, normalizePosts [({} : RawPost), rp1] = .ok ps ∧
      ps.length = ([({} : RawPost), rp1] : List RawPost).length ∧
      ∀ pr ∈ ([({} : RawPost), rp1] : List RawPost).zip ps,
        nullMapping pr.1 pr.2) :=
  ⟨by decide, c8_normalize_missing_fields [({} : RawPost), rp1] (by decide)⟩

/-! ## Thread grouper lemmas -/

/-- Pushing one post into its bucket adds exactly that post to the
multiset of all bucketed posts. -/
theorem addToBucket_join (bs : List Thread) (tid : String) (p : Post) :
    (((addToBucket bs tid p).map Thread.posts).flatten).Perm
      ((bs.map Thread.posts).flatten ++ [p]) := by
  induction bs with
  | nil => simp [addToBucket]
  | cons t ts ih =>
    by_cases h : (t.thread_id == tid) = true
    · simp only [addToBucket, h, if_true, List.map_cons, List.flatten_cons]
      rw [List.append_assoc, List.append_assoc]
      exact List.Perm.append_left _ List.perm_append_comm
    · simp only [addToBucket, h, if_false, List.map_cons, List.flatten_cons]
      rw [List.append_assoc]
      exact List.Perm.append_left _ ih

/-- Folding posts into buckets appends exactly those posts to the
multiset of all bucketed posts. -/
theorem foldl_insert_join (ps : List Post) :
    ∀ bs : List Thread,
      (((ps.foldl insertPost bs).map Thread.posts).flatten).Perm
        ((bs.map Thread.posts).flatten ++ ps) := by
  induction ps with
  | nil => intro bs; simp
  | cons p ps ih =>
    intro bs
    simp only [List.foldl_cons]
    refine (ih (insertPost bs p)).trans ?_
    refine ((addToBucket_join bs (groupKey p) p).append_right ps).trans ?_
    rw [List.append_assoc, List.singleton_append]

/-- Sorting each bucket's posts permutes the bucketed multiset. -/
theorem map_sort_join (bs : List Thread) :
    (((bs.map fun t => { t with posts := t.posts.insertionSort tsLe }).map
        Thread.posts).flatten).Perm
      ((bs.map Thread.posts).flatten) := by
  induction bs with
  | nil => simp
  | cons t ts ih =>
    simp only [List.map_cons, List.flatten_cons]
    exact List.Perm.append (List.perm_insertionSort tsLe t.posts) ih

/-- The pushed post lands in a bucket keyed by its group key. -/
theorem addToBucket_mem_new (bs : List Thread) (tid : String) (p : Post) :
    ∃ t ∈ addToBucket bs tid p, t.thread_id = tid ∧ p ∈ t.posts := by
  induction bs with
  | nil => exact ⟨⟨tid, p.board, [p]⟩, by simp [addToBucket], rfl, by simp⟩
  | cons t ts ih =>
    by_cases h : (t.thread_id == tid) = true
    · refine ⟨{ t with posts := t.posts ++ [p] }, by simp [addToBucket, h], ?_, by simp⟩
      simpa using h
    · obtain ⟨t', ht', h1, h2⟩ := ih
      exact ⟨t', by simp [addToBucket, h, ht'], h1, h2⟩

/-- Every post already in a bucket stays in a bucket with the same key
and board after a push. -/
theorem addToBucket_mem_old (bs : List Thread) (tid : String) (p : Post)
    (t : Thread) (ht : t ∈ bs) (q : Post) (hq : q ∈ t.posts) :
    ∃ t' ∈ addToBucket bs tid p,
      t'.thread_id = t.thread_id ∧ q ∈ t'.posts ∧ t'.board = t.board := by
  induction bs with
  | nil => cases ht
  | cons b ts ih =>
    by_cases h : (b.thread_id == tid) = true
    · rcases List.mem_cons.mp ht with rfl | hmem
      · exact ⟨{ t with posts := t.posts ++ [p] }, by simp [addToBucket, h],
          rfl, by simp [hq], rfl⟩
      · exact ⟨t, by simp [addToBucket, h, hmem], rfl, hq, rfl⟩
    · rcases List.mem_cons.mp ht with rfl | hmem
      · exact ⟨t, by simp [addToBucket, h], rfl, hq, rfl⟩
      · obtain ⟨t', ht', h1, h2, h3⟩ := ih hmem
        exact ⟨t', by simp [addToBucket, h, ht'], h1, h2, h3⟩

/-- Every existing bucket key survives a push. -/
theorem addToBucket_keeps (bs : List Thread) (tid : String) (p : Post)
    (t : Thread) (ht : t ∈ bs) :
    ∃ t' ∈ addToBucket bs tid p, t'.thread_id = t.thread_id := by
  induction bs with
  | nil => cases ht
  | cons b ts ih =>
    by_cases h : (b.thread_id == tid) = true
    · rcases List.mem_cons.mp ht with rfl | hmem
      · exact ⟨{ t with posts := t.posts ++ [p] }, by simp [addToBucket, h], rfl⟩
      · exact ⟨t, by simp [addToBucket, h, hmem], rfl⟩
    · rcases List.mem_cons.mp ht with rfl | hmem
      · exact ⟨t, by simp [addToBucket, h], rfl⟩
      · obtain ⟨t', ht', e⟩ := ih hmem
        exact ⟨t', by simp [addToBucket, h, ht'], e⟩

/-- Bucket membership of a given post survives the rest of the fold. -/
theorem fold_preserves_mem (ps : List Post) :
    ∀ (bs : List Thread) (t : Thread) (q : Post), t ∈ bs → q ∈ t.posts →
      ∃ t' ∈ ps.foldl insertPost bs, t'.thread_id = t.thread_id ∧ q ∈ t'.posts := by
  induction ps with
  | nil => intro bs t q ht hq; exact ⟨t, ht, rfl, hq⟩
  | cons p ps ih =>
    intro bs t q ht hq
    simp only [List.foldl_cons]
    obtain ⟨t1, ht1, e1, hq1, _⟩ := addToBucket_mem_old bs (groupKey p) p t ht q hq
    obtain ⟨t2, ht2, e2, hq2⟩ := ih (insertPost bs p) t1 q ht1 hq1
    exact ⟨t2, ht2, e2.trans e1, hq2⟩

/-- Every folded post ends up in the bucket keyed by its group key. -/
theorem fold_mem_of_elem (ps : List Post) :
    ∀ (bs : List Thread) (p : Post), p ∈ ps →
      ∃ t ∈ ps.foldl insertPost bs, t.thread_id = groupKey p ∧ p ∈ t.posts := by
  induction ps with
  | nil => intro bs p hp; cases hp
  | cons q qs ih =>
    intro bs p hp
    simp only [List.foldl_cons]
    rcases List.mem_cons.mp hp with rfl | hmem
    · obtain ⟨t1, ht1, e1, hp1⟩ := addToBucket_mem_new bs (groupKey p) p
      obtain ⟨t2, ht2, e2, hp2⟩ := fold_preserves_mem qs (insertPost bs p) t1 p ht1 hp1
      exact ⟨t2, ht2, e2.trans e1, hp2⟩
    · exact ih (insertPost bs q) p hmem

/-! ## Claim C7: grouping preserves the multiset and sorts each thread -/

/-- C7.  Flattening the posts of all threads returned by `groupByThread`
permutes the input (no post lost or duplicated); every post without a
thread id lands in the sentinel "unknown" thread; and within each
returned thread, the timestamps (a missing timestamp counting as 0) are
in non-decreasing order. -/
theorem c7_group_multiset_and_sorted (ps : List Post) :
    (((groupByThread ps).map Thread.posts).flatten).Perm ps ∧
    (∀ p ∈ ps, p.thread_id = none →
      ∃ t ∈ groupByThread ps, t.thread_id = "unknown" ∧ p ∈ t.posts) ∧
    (∀ t ∈ groupByThread ps, t.posts.Sorted tsLe) := by
  refine ⟨?_, ?_, ?_⟩
  · unfold groupByThread
    refine (map_sort_join _).trans ?_
    refine (foldl_insert_join ps []).trans ?_
    simp
  · intro p hp hnone
    obtain ⟨t, ht, e, hmem⟩ := fold_mem_of_elem ps [] p hp
    refine ⟨{ t with posts := t.posts.insertionSort tsLe }, ?_, ?_, ?_⟩
    · unfold groupByThread
      exact List.mem_map_of_mem _ ht
    · simpa [groupKey, hnone] using e
    · simpa using (List.mem_insertionSort tsLe).mpr hmem
  · intro t ht
    unfold groupByThread at ht
    obtain ⟨t0, _, rfl⟩ := List.mem_map.mp ht
    exact List.sorted_insertionSort tsLe t0.posts

/-- A post of thread 100 on board x with timestamp 5. -/
def pThreadA : Post :=
  { pNorm1 with
    thread_id := some "100"
    board := some (.strv "x")
    timestamp := some 5 }

/-- A post of thread 100 on board z with timestamp 3. -/
def pThreadB : Post :=
  { pNorm1 with
    post_id := some "9"
    thread_id := some "100"
    board := some (.strv "z")
    timestamp := some 3 }

/-- Closed instantiation of the C7 theorem on three posts, one without a
thread id. -/
theorem c7_group_multiset_and_sorted_witness :
    (((groupByThread [pThreadA, pThreadB, pNorm1]).map Thread.posts).flatten).Perm
      [pThreadA, pThreadB, pNorm1] ∧
    (∃ t ∈ groupByThread [pThreadA, pThreadB, pNorm1],
      t.thread_id = "unknown" ∧ pNorm1 ∈ t.posts) :=
  ⟨(c7_group_multiset_and_sorted [pThreadA, pThreadB, pNorm1]).1,
   (c7_group_multiset_and_sorted [pThreadA, pThreadB, pNorm1]).2.1 pNorm1
     (by simp) rfl⟩

/-! ## Claim C10: a thread's board is the first post's board -/

/-- The invariant relating processed posts to the bucket list: every
bucket's board is the board of the first processed post whose group key
is the bucket's key, and every processed post has a bucket. -/
def BoardInv (seen : List Post) (bs : List Thread) : Prop :=
  (∀ t ∈ bs, ∃ p, seen.find? (fun x => groupKey x == t.thread_id) = some p ∧
      t.board = p.board) ∧
  (∀ q ∈ seen, ∃ t ∈ bs, t.thread_id = groupKey q)

/-- Every bucket after a push is an old bucket (same key and board) or
the freshly created one (the pushed post's board, key not previously
present). -/
theorem addToBucket_cases (bs : List Thread) (tid : String) (p : Post) :
    ∀ t' ∈ addToBucket bs tid p,
      (∃ t ∈ bs, t'.thread_id = t.thread_id ∧ t'.board = t.board) ∨
      (t'.thread_id = tid ∧ t'.board = p.board ∧
        ∀ t ∈ bs, (t.thread_id == tid) = false) := by
  induction bs with
  | nil =>
    intro t' ht'
    simp only [addToBucket, List.mem_singleton] at ht'
    subst ht'
    right
    exact ⟨rfl, rfl, by simp⟩
  | cons b ts ih =>
    intro t' ht'
    by_cases h : (b.thread_id == tid) = true
    · simp only [addToBucket, h, if_true] at ht'
      rcases List.mem_cons.mp ht' with rfl | hmem
      · left; exact ⟨b, by simp, rfl, rfl⟩
      · left; exact ⟨t', List.mem_cons_of_mem _ hmem, rfl, rfl⟩
    · simp only [addToBucket, h, if_false] at ht'
      rcases List.mem_cons.mp ht' with rfl | hmem
      · left; exact ⟨t', by simp, rfl, rfl⟩
      · rcases ih t' hmem with ⟨t, ht, e1, e2⟩ | ⟨e1, e2, hall⟩
        · left; exact ⟨t, List.mem_cons_of_mem _ ht, e1, e2⟩
        · right
          refine ⟨e1, e2, ?_⟩
          intro t ht
          rcases List.mem_cons.mp ht with rfl | hmem2
          · simpa using h
          · exact hall t hmem2

/-- `BoardInv` is preserved by inserting one more post. -/
theorem boardInv_insert (seen : List Post) (bs : List Thread) (p : Post)
    (h : BoardInv seen bs) : BoardInv (seen ++ [p]) (insertPost bs p) := by
  obtain ⟨h1, h2⟩ := h
  constructor
  · intro t' ht'
    rcases addToBucket_cases bs (groupKey p) p t' ht' with
      ⟨t, ht, e1, e2⟩ | ⟨e1, e2, hall⟩
    · obtain ⟨q, hq, hb⟩ := h1 t ht
      refine ⟨q, ?_, by rw [e2, hb]⟩
      rw [e1, List.find?_append, hq]
      rfl
    · have hnone : seen.find? (fun x => groupKey x == t'.thread_id) = none := by
        rw [List.find?_eq_none]
        intro x hx hgx
        have hkey : groupKey x = t'.thread_id := by simpa using hgx
        obtain ⟨t, ht, e⟩ := h2 x hx
        have hbad : (t.thread_id == groupKey p) = true := by
          rw [e, hkey, e1]; simp
        rw [hall t ht] at hbad
        cases hbad
      refine ⟨p, ?_, e2⟩
      rw [List.find?_append, hnone]
      simp [List.find?_cons, e1]
  · intro q hq
    rcases List.mem_append.mp hq with hmem | hmem
    · obtain ⟨t, ht, e⟩ := h2 q hmem
      obtain ⟨t', ht', e'⟩ := addToBucket_keeps bs (groupKey p) p t ht
      exact ⟨t', ht', e'.trans e⟩
    · have hqp : q = p := by simpa using hmem
      subst hqp
      obtain ⟨t, ht, e, _⟩ := addToBucket_mem_new bs (groupKey q) q
      exact ⟨t, ht, e⟩

/-- `BoardInv` is preserved by the whole fold. -/
theorem boardInv_fold (ps : List Post) :
    ∀ (seen : List Post) (bs : List Thread), BoardInv seen bs →
      BoardInv (seen ++ ps) (ps.foldl insertPost bs) := by
  induction ps with
  | nil => intro seen bs h; simpa using h
  | cons p ps ih =>
    intro seen bs h
    have h2 := ih (seen ++ [p]) (insertPost bs p) (boardInv_insert seen bs p h)
    simpa [List.append_assoc] using h2

/-- C10.  The board of every thread returned by `groupByThread` is the
board of the first post, in input order, whose thread id maps to that
thread; later posts of the same thread never change it. -/
theorem c10_thread_board_first_post (ps : List Post) (t : Thread)
    (ht : t ∈ groupByThread ps) :
    ∃ p, ps.find? (fun x => groupKey x == t.thread_id) = some p ∧
      t.board = p.board := by
  have hinv : BoardInv ps (ps.foldl insertPost []) := by
    have h0 : BoardInv [] [] := ⟨by simp, by simp⟩
    simpa using boardInv_fold ps [] [] h0
  unfold groupByThread at ht
  obtain ⟨t0, ht0, rfl⟩ := List.mem_map.mp ht
  obtain ⟨p, hp, hb⟩ := hinv.1 t0 ht0
  exact ⟨p, hp, hb⟩

/-- The thread-100 group produced from the C7 demonstration list. -/
def tDemo : Thread := ⟨"100", some (.strv "x"), [pThreadB, pThreadA]⟩

/-- Closed instantiation of the C10 theorem: the board of thread 100 is
the board of `pThreadA`, the first post of that thread in input order,
not that of the later `pThreadB`. -/
theorem c10_thread_board_first_post_witness :
    ∃ p, ([pThreadA, pThreadB, pNorm1].find?
        (fun x => groupKey x == tDemo.thread_id)) = some p ∧
      tDemo.board = p.board :=
  c10_thread_board_first_post [pThreadA, pThreadB, pNorm1] tDemo (by decide)
